import Mathlib

/-!
Shallow embedding of `aiometrics.py` (dmonroy/aiometrics).

Modelling conventions:
* `datetime.utcnow()` values are integers counting microseconds since the
  epoch (`datetime` has microsecond resolution); each call to `utcnow()` in
  the source is a separate clock reading and is passed in explicitly.
* Python floats (the `total_time` milliseconds values) are modelled as exact
  rationals `ℚ`.
* `TraceCollector._traces` is an `OrderedDict` keyed by the trace's own
  `id` field, so it is modelled as an insertion-ordered list of `Trace`
  records; dictionary `pop`/membership is by the `id` field.
* Fallible operations (Python `KeyError` on a missing dict key, `max`/`min`
  on an empty list) return `Option`, with `none` for the raising path.
-/

namespace Aiometrics

/-- UTC timestamps: integer microseconds since the epoch. -/
abbrev Time := ℤ

/-- The identity of a wrapped callable: `func.__module__` and
`func.__qualname__`. -/
structure Func where
  module : String
  qualname : String
deriving DecidableEq

/-- A Python exception, as far as `trace_exception` inspects it:
`exception.__class__.__name__` and `str(exception)`. -/
structure Exc where
  className : String
  message : String
deriving DecidableEq

/-- One entry of `TraceCollector._traces` (the dict built by `trace_start`
/ `trace_exception` and updated by `trace_end`).  `end_time` and
`total_time` are absent (`none`) while the trace is in flight. -/
structure Trace where
  id : String
  key : String
  start_time : Time
  end_time : Option Time
  total_time : Option ℚ
deriving DecidableEq

/-- `TraceCollector._traces`: an insertion-ordered mapping from trace id to
trace, where every stored record's `id` field equals its dict key. -/
abbrev Registry := List Trace

/-- `'{}:{}'.format(func.__module__, func.__qualname__)` — the key built by
`trace_start` (aiometrics.py line 166). -/
def funcKey (f : Func) : String := f.module ++ ":" ++ f.qualname

/-- `TraceCollector.trace_start` (lines 160-173): insert a fresh in-flight
trace at the end of the ordered registry.  The generated uuid `i` and the
`datetime.utcnow()` reading `now` are passed explicitly. -/
def trace_start (reg : Registry) (i : String) (f : Func) (now : Time) : Registry :=
  reg ++ [{ id := i, key := funcKey f, start_time := now,
            end_time := none, total_time := none }]

/-- `timedelta.total_seconds()` for a timedelta of `d` microseconds. -/
def total_seconds (d : ℤ) : ℚ := (d : ℚ) / 1000000

/-- `TraceCollector.trace_end` (lines 197-206): look the trace up by id
(`KeyError` → `none` when absent) and stamp
`end_time = now`, `total_time = (end_time - start_time).total_seconds() * 1000`. -/
def trace_end (reg : Registry) (i : String) (now : Time) : Option Registry :=
  if reg.any (fun t => t.id == i) then
    some (reg.map (fun t =>
      if t.id == i then
        { t with end_time := some now,
                 total_time := some (total_seconds (now - t.start_time) * 1000) }
      else t))
  else none

/-- `str.splitlines` on a character list: split at each `'\n'`, with no
trailing empty segment when the string ends in a newline (so the empty
string yields the empty list, as in Python). -/
def pySplitLinesAux (acc : List Char) : List Char → List String
  | [] => [String.mk acc.reverse]
  | c :: rest =>
    if c == '\n' then
      String.mk acc.reverse ::
        (match rest with | [] => [] | _ :: _ => pySplitLinesAux [] rest)
    else pySplitLinesAux (c :: acc) rest

/-- `str(exception).splitlines()`, modelled with `'\n'` as the line
terminator. -/
def pySplitLines (s : String) : List String :=
  match s.data with
  | [] => []
  | cs => pySplitLinesAux [] cs

/-- The `'{}({})'.format(ex_class, ex_lines[0] if len(ex_lines) else None)`
label of `trace_exception` (lines 181-185); an empty message gives an empty
line list and hence the Python literal `None`. -/
def exLabel (e : Exc) : String :=
  let ex_lines : List String := pySplitLines e.message
  e.className ++ "(" ++ (match ex_lines with | [] => "None" | l :: _ => l) ++ ")"

/-- `TraceCollector.trace_exception` (lines 175-195): insert a synthetic
completed trace.  The source reads `datetime.utcnow()` twice — once for
`start_time` and once for `end_time` — so the two readings `t1`, `t2` are
separate parameters; `total_time` is the literal `0`. -/
def trace_exception (reg : Registry) (i : String) (e : Exc) (f : Func)
    (t1 t2 : Time) : Registry :=
  reg ++ [{ id := i,
            key := "Exception:" ++ f.module ++ ":" ++ f.qualname ++ ":" ++ exLabel e,
            start_time := t1, end_time := some t2, total_time := some 0 }]

/-- One per-key summary produced by `TraceCollector.stats` (lines 258-263). -/
structure Summary where
  count : ℕ
  max : ℚ
  min : ℚ
  avg : ℚ
deriving DecidableEq

/-- The summary computed for one group `times = data[key]` (lines 256-263):
`count=len(times), max=max(times), min=min(times), avg=sum(times)/len(times)`.
Python's `max`/`min` raise on an empty list, hence `Option`; `max` over a
non-empty list is a left fold of the binary maximum. -/
def summarize : List ℚ → Option Summary
  | [] => none
  | x :: xs =>
    some { count := (x :: xs).length,
           max := xs.foldl Max.max x,
           min := xs.foldl Min.min x,
           avg := (x :: xs).sum / ((x :: xs).length : ℚ) }

/-- The keys of a Python dict populated in traversal order, with `seen`
the keys already present: first occurrences, in order of first
appearance. -/
def firstKeysAux (seen : List String) : List String → List String
  | [] => []
  | k :: ks =>
    if seen.contains k then firstKeysAux seen ks
    else k :: firstKeysAux (k :: seen) ks

/-- The keys of a Python dict populated in traversal order: first
occurrences, in order of first appearance. -/
def firstKeys (l : List String) : List String := firstKeysAux [] l

/-- The iteration order of `data` in `TraceCollector.stats`: keys in order
of first appearance in the trace list. -/
def statsKeys (traces : List Trace) : List String :=
  firstKeys (traces.map (fun t => t.key))

/-- `data[key]` after the grouping loop of `stats` (lines 247-254): the
`total_time` fields of the traces with that key, in traversal order.
A `total_time` that is still absent models the `KeyError` on
`trace['total_time']`. -/
def groupTimes (traces : List Trace) (k : String) : List (Option ℚ) :=
  (traces.filter (fun t => t.key == k)).map (fun t => t.total_time)

/-- The `(key, summary)` entry built for one key of `data` (lines 256-263);
`none` models either a `KeyError` on `total_time` or `max`/`min` on an
empty list (neither occurs on inputs produced by `stream`). -/
def keyStats (traces : List Trace) (k : String) : Option (String × Summary) := do
  let times ← (groupTimes traces k).mapM id
  let s ← summarize times
  pure (k, s)

/-- The dict returned by `TraceCollector.stats` (lines 240-265), as an
insertion-ordered association list. -/
def stats (traces : List Trace) : Option (List (String × Summary)) :=
  (statsKeys traces).mapM (keyStats traces)

/-- The `traces` field of the report: the value of `stats`. -/
abbrev Stats := List (String × Summary)

/-- The filter of `TraceCollector.stream` line 226:
`t['start_time'] < now and t['end_time'] is not None`. -/
def eligible (now : Time) (t : Trace) : Bool :=
  decide (t.start_time < now) && t.end_time.isSome

/-- The accumulated effect of the `cls._traces.pop(trace['id'])` calls in
`stats` (line 254): every registry entry whose id is the id of one of the
drained traces is removed. -/
def popTraces (reg : Registry) (traces : List Trace) : Registry :=
  reg.filter (fun t => !(traces.any (fun u => u.id == t.id)))

/-- `TraceCollector.stream` (lines 222-238): capture `now`, select the
completed past traces, return early when there are none, otherwise build
the report (its `traces` field; the `instance` identity is environment
data) and remove the drained entries.  The result is
`(report delivered to the driver (if any), registry afterwards)`;
outer `none` is the (unreachable on well-formed registries) `KeyError`
path inside `stats`. -/
def stream (reg : Registry) (now : Time) : Option (Option Stats × Registry) :=
  let traces := reg.filter (eligible now)
  if traces.isEmpty then some (none, reg)
  else
    match stats traces with
    | none => none
    | some s => some (some s, popTraces reg traces)

/-- `datetime.minute` for a microsecond timestamp: minute-of-hour, 0-59. -/
def minuteOf (t : Time) : ℤ := (t / 60000000) % 60

/-- `TraceCollector.time_to_stream` (lines 208-220) as the decision whether
`cls.stream()` is invoked: `False` on an empty registry, otherwise compare
the minute-of-hour of `now` with that of the first (oldest inserted)
entry's `start_time`. -/
def time_to_stream (reg : Registry) (now : Time) : Bool :=
  match reg with
  | [] => false
  | first :: _ => decide (minuteOf now ≠ minuteOf first.start_time)

/-- The `trace` decorator's wrapper (lines 268-282) acting on one
invocation.  The wrapped call's outcome is `result`; `i1`/`t1` are the
uuid and clock reading of `trace_start`, `i2`/`t2`/`t3` those of
`trace_exception` (two clock readings), `t4` the reading of `trace_end`.
On success `trace_end` runs; on an exception `trace_exception` records a
failure trace and `raise e` re-raises the same exception. -/
def traceWrapper {α : Type} (reg : Registry) (f : Func) (i1 : String) (t1 : Time)
    (result : Except Exc α) (i2 : String) (t2 t3 : Time) (t4 : Time) :
    Option (Registry × Except Exc α) :=
  let reg1 := trace_start reg i1 f t1
  match result with
  | .error e => some (trace_exception reg1 i2 e f t2 t3, .error e)
  | .ok v => (trace_end reg1 i1 t4).map (fun reg2 => (reg2, .ok v))

/-- Whether a string starts with the path separator `'/'`. -/
def headSlash (s : String) : Bool :=
  match s.data with
  | [] => false
  | c :: _ => c == '/'

/-- Whether a string ends with the path separator `'/'`. -/
def lastSlash (s : String) : Bool :=
  match s.data.getLast? with
  | some c => c == '/'
  | none => false

/-- `os.path.join` for two POSIX path components. -/
def pathJoin (a b : String) : String :=
  if headSlash b then b
  else if (a == "") || lastSlash a then a ++ b
  else a ++ "/" ++ b

/-- Round half to even, as Python `'%0.2f'` rounding does on the scaled
value. -/
def rndHalfEven (q : ℚ) : ℤ :=
  let f := q.floor
  let r := q - (f : ℚ)
  if r < 1/2 then f
  else if 1/2 < r then f + 1
  else if f % 2 = 0 then f else f + 1

/-- A natural number forced to two decimal digits. -/
def twoDigits (n : ℕ) : String := if n < 10 then "0" ++ toString n else toString n

/-- `'%0.2f' % v`: fixed-point rendering with exactly two decimals. -/
def fmt2 (v : ℚ) : String :=
  let cents := rndHalfEven (v * 100)
  let sgn := if cents < 0 then "-" else ""
  sgn ++ toString (cents.natAbs / 100) ++ "." ++ twoDigits (cents.natAbs % 100)

/-- The nested `report['traces']` shape the Prometheus driver iterates:
job → minute → metric field → value. -/
abbrev PromTraces := List (String × List (String × List (String × ℚ)))

/-- The `lines` list built by `PrometheusPushGatewayDriver.stream`
(lines 59-65): for every job, minute and field, a `# TYPE` line followed
by the gauge value line, with `key = '%s:%s' % (self.name, job)`. -/
def promLines (name : String) (traces : PromTraces) : List String :=
  traces.flatMap (fun jobEntry =>
    let key := name ++ ":" ++ jobEntry.1
    jobEntry.2.flatMap (fun minuteEntry =>
      minuteEntry.2.flatMap (fun kv =>
        ["# TYPE " ++ key ++ "_" ++ kv.1 ++ " gauge",
         key ++ "_" ++ kv.1 ++ " " ++ fmt2 kv.2])))

/-- Python `"\n".join(lines)`. -/
def joinLines : List String → String
  | [] => ""
  | [l] => l
  | l :: rest => l ++ "\n" ++ joinLines rest

/-- `PrometheusPushGatewayDriver` (lines 47-71): the URL built in
`__init__` (`os.path.join(url, 'metrics/job', name)`) and the POST body
(`"\n".join(lines + [""])`, the trailing empty string being the required
blank-line terminator). -/
def promStream (name url : String) (traces : PromTraces) : String × String :=
  (pathJoin (pathJoin url "metrics/job") name,
   joinLines (promLines name traces ++ [""]))

/-- Registry lookup by trace id (`cls._traces[trace_id]`): the first — on a
well-formed registry, only — entry whose `id` field is `i`. -/
def findId : Registry → String → Option Trace
  | [], _ => none
  | t :: reg, i => if t.id == i then some t else findId reg i

/-! ### Helper definitions used only to state and prove lemmas -/

/-- The group of `total_time` values for a key, with the `Option` layer
stripped (coincides with the group when every `total_time` is present). -/
def groupValues (traces : List Trace) (k : String) : List ℚ :=
  (traces.filter (fun t => t.key == k)).filterMap (fun t => t.total_time)

/-- The summary `stats` computes for a key, defaulted on the impossible
empty group. -/
def summaryD (traces : List Trace) (k : String) : Summary :=
  (summarize (groupValues traces k)).getD ⟨0, 0, 0, 0⟩

/-! ### Lemmas about dict key order -/

lemma mem_firstKeysAux {a : String} :
    ∀ (l : List String) (seen : List String),
      a ∈ firstKeysAux seen l ↔ (a ∈ l ∧ a ∉ seen) := by
  intro l
  induction l with
  | nil => simp [firstKeysAux]
  | cons k ks ih =>
    intro seen
    cases hk : seen.contains k with
    | true =>
      have hk' : k ∈ seen := by simpa using hk
      simp only [firstKeysAux, hk, if_true, ih, List.mem_cons]
      constructor
      · rintro ⟨h1, h2⟩; exact ⟨Or.inr h1, h2⟩
      · rintro ⟨h1 | h1, h2⟩
        · exact absurd (h1 ▸ hk') h2
        · exact ⟨h1, h2⟩
    | false =>
      have hk' : k ∉ seen := by simpa using hk
      simp only [firstKeysAux, hk, Bool.false_eq_true, if_false, List.mem_cons, ih]
      constructor
      · rintro (rfl | ⟨h1, h2⟩)
        · exact ⟨Or.inl rfl, hk'⟩
        · exact ⟨Or.inr h1, fun hc => h2 (Or.inr hc)⟩
      · rintro ⟨rfl | h1, h2⟩
        · exact Or.inl rfl
        · by_cases ha : a = k
          · exact Or.inl ha
          · exact Or.inr ⟨h1, fun hc => hc.elim ha h2⟩

lemma mem_firstKeys {a : String} {l : List String} : a ∈ firstKeys l ↔ a ∈ l := by
  simp [firstKeys, mem_firstKeysAux]

lemma mem_statsKeys {k : String} {traces : List Trace} :
    k ∈ statsKeys traces ↔ ∃ t ∈ traces, t.key = k := by
  simp [statsKeys, mem_firstKeys, eq_comm]

/-! ### Lemmas about `mapM` over `Option` -/

lemma mapM_eq_some_map {β γ : Type} (f : β → Option γ) (g : β → γ) :
    ∀ (l : List β), (∀ a ∈ l, f a = some (g a)) → l.mapM f = some (l.map g) := by
  intro l
  induction l with
  | nil => intro _; rfl
  | cons a l ih =>
    intro h
    rw [List.mapM_cons, h a (List.mem_cons_self a l),
      ih (fun b hb => h b (List.mem_cons_of_mem _ hb))]
    rfl

lemma mapM_id_filterMap {β : Type} :
    ∀ (l : List (Option β)), (∀ o ∈ l, o.isSome) →
      l.mapM id = some (l.filterMap id) := by
  intro l
  induction l with
  | nil => intro _; rfl
  | cons o l ih =>
    intro h
    match o, h o (List.mem_cons_self o l) with
    | some a, _ =>
      rw [List.mapM_cons, ih (fun b hb => h b (List.mem_cons_of_mem _ hb))]
      rfl

lemma mapM_id_eq_map_some {β : Type} :
    ∀ {l : List (Option β)} {v : List β}, l.mapM id = some v → l = v.map some := by
  intro l
  induction l with
  | nil =>
    intro v h
    simp only [List.mapM_nil, pure, Option.some.injEq] at h
    simp [← h]
  | cons o l ih =>
    intro v h
    rw [List.mapM_cons] at h
    match o with
    | none => simp at h
    | some a =>
      simp only [id, Option.bind_eq_bind, Option.some_bind, Option.bind_eq_some,
        Option.map_eq_map, Option.map_eq_some'] at h
      obtain ⟨w, hw, hv⟩ := h
      · simp only [pure, Option.some.injEq] at hv
        rw [← hv, List.map_cons, ← ih hw]

/-! ### Evaluation of `stats` on fully completed traces -/

lemma groupValues_eq_of_mapM {traces : List Trace} {k : String} {times : List ℚ}
    (h : (groupTimes traces k).mapM id = some times) :
    groupValues traces k = times := by
  have h1 := mapM_id_eq_map_some h
  have h2 : (groupTimes traces k).filterMap id = times := by
    rw [h1, List.filterMap_map]
    simp [List.filterMap_some]
  rw [← h2, groupValues, groupTimes, List.filterMap_map]
  rfl

lemma keyStats_eq {traces : List Trace} {k : String}
    (hk : k ∈ statsKeys traces)
    (h : ∀ t ∈ traces, t.total_time.isSome) :
    keyStats traces k = some (k, summaryD traces k) := by
  have h1 : ∀ o ∈ groupTimes traces k, o.isSome := by
    intro o ho
    obtain ⟨t, ht, rfl⟩ := List.mem_map.mp ho
    exact h t (List.mem_filter.mp ht).1
  have h2 := mapM_id_filterMap _ h1
  have h3 : groupValues traces k = (groupTimes traces k).filterMap id :=
    groupValues_eq_of_mapM (h2.trans rfl)
  obtain ⟨t, ht, hkey⟩ := mem_statsKeys.mp hk
  have h4 : t.total_time ∈ groupTimes traces k := by
    refine List.mem_map_of_mem _ ?_
    exact List.mem_filter.mpr ⟨ht, by simp [hkey]⟩
  have h5 : groupValues traces k ≠ [] := by
    obtain ⟨a, ha⟩ := Option.isSome_iff_exists.mp (h1 _ h4)
    have : a ∈ (groupTimes traces k).filterMap id := by
      exact List.mem_filterMap.mpr ⟨t.total_time, h4, by simp [ha]⟩
    rw [← h3] at this
    exact List.ne_nil_of_mem this
  obtain ⟨x, xs, hxx⟩ : ∃ x xs, groupValues traces k = x :: xs := by
    cases hgv : groupValues traces k with
    | nil => exact absurd hgv h5
    | cons x xs => exact ⟨x, xs, rfl⟩
  unfold keyStats
  rw [h2, ← h3, hxx]
  simp [summarize, summaryD, hxx]

lemma stats_eq {traces : List Trace}
    (h : ∀ t ∈ traces, t.total_time.isSome) :
    stats traces = some ((statsKeys traces).map (fun k => (k, summaryD traces k))) :=
  mapM_eq_some_map _ _ _ (fun _ hk => keyStats_eq hk h)

lemma lookup_keyed (g : String → Summary) :
    ∀ (keys : List String) (k : String),
      (keys.map (fun a => (a, g a))).lookup k
        = if k ∈ keys then some (g k) else none := by
  intro keys
  induction keys with
  | nil => intro _; simp
  | cons a keys ih =>
    intro k
    by_cases h : k = a
    · subst h; simp [List.lookup]
    · simp only [List.map_cons, List.lookup, beq_eq_false_iff_ne.mpr h,
        List.mem_cons, h, false_or]
      exact ih k

/-! ### Permutation invariance of the per-group summary -/

lemma foldl_max_mem (x : ℚ) (xs : List ℚ) : xs.foldl Max.max x ∈ x :: xs := by
  induction xs generalizing x with
  | nil => simp
  | cons y ys ih =>
    rw [List.foldl_cons]
    rcases List.mem_cons.mp (ih (Max.max x y)) with h | h
    · rcases max_choice x y with hm | hm <;> rw [h, hm]
      · exact List.mem_cons_self _ _
      · exact List.mem_cons_of_mem _ (List.mem_cons_self _ _)
    · exact List.mem_cons_of_mem _ (List.mem_cons_of_mem _ h)

lemma le_foldl_max (x : ℚ) (xs : List ℚ) : ∀ a ∈ x :: xs, a ≤ xs.foldl Max.max x := by
  induction xs generalizing x with
  | nil => intro a ha; simp at ha; simp [ha]
  | cons y ys ih =>
    intro a ha
    rw [List.foldl_cons]
    rcases List.mem_cons.mp ha with rfl | ha
    · exact le_trans (le_max_left a y) (ih _ _ (List.mem_cons_self _ _))
    · rcases List.mem_cons.mp ha with rfl | ha
      · exact le_trans (le_max_right x a) (ih _ _ (List.mem_cons_self _ _))
      · exact ih _ _ (List.mem_cons_of_mem _ ha)

lemma foldl_min_mem (x : ℚ) (xs : List ℚ) : xs.foldl Min.min x ∈ x :: xs := by
  induction xs generalizing x with
  | nil => simp
  | cons y ys ih =>
    rw [List.foldl_cons]
    rcases List.mem_cons.mp (ih (Min.min x y)) with h | h
    · rcases min_choice x y with hm | hm <;> rw [h, hm]
      · exact List.mem_cons_self _ _
      · exact List.mem_cons_of_mem _ (List.mem_cons_self _ _)
    · exact List.mem_cons_of_mem _ (List.mem_cons_of_mem _ h)

lemma foldl_min_le (x : ℚ) (xs : List ℚ) : ∀ a ∈ x :: xs, xs.foldl Min.min x ≤ a := by
  induction xs generalizing x with
  | nil => intro a ha; simp at ha; simp [ha]
  | cons y ys ih =>
    intro a ha
    rw [List.foldl_cons]
    rcases List.mem_cons.mp ha with rfl | ha
    · exact le_trans (ih _ _ (List.mem_cons_self _ _)) (min_le_left a y)
    · rcases List.mem_cons.mp ha with rfl | ha
      · exact le_trans (ih _ _ (List.mem_cons_self _ _)) (min_le_right x a)
      · exact ih _ _ (List.mem_cons_of_mem _ ha)

lemma foldl_max_perm {x₁ x₂ : ℚ} {xs₁ xs₂ : List ℚ}
    (h : (x₁ :: xs₁).Perm (x₂ :: xs₂)) :
    xs₁.foldl Max.max x₁ = xs₂.foldl Max.max x₂ := by
  apply le_antisymm
  · exact le_foldl_max x₂ xs₂ _ (h.mem_iff.mp (foldl_max_mem x₁ xs₁))
  · exact le_foldl_max x₁ xs₁ _ (h.mem_iff.mpr (foldl_max_mem x₂ xs₂))

lemma foldl_min_perm {x₁ x₂ : ℚ} {xs₁ xs₂ : List ℚ}
    (h : (x₁ :: xs₁).Perm (x₂ :: xs₂)) :
    xs₁.foldl Min.min x₁ = xs₂.foldl Min.min x₂ := by
  apply le_antisymm
  · exact foldl_min_le x₁ xs₁ _ (h.mem_iff.mpr (foldl_min_mem x₂ xs₂))
  · exact foldl_min_le x₂ xs₂ _ (h.mem_iff.mp (foldl_min_mem x₁ xs₁))

lemma summarize_perm {l₁ l₂ : List ℚ} (h : l₁.Perm l₂) :
    summarize l₁ = summarize l₂ := by
  cases l₁ with
  | nil =>
    rw [h.symm.eq_nil]
  | cons x xs =>
    cases l₂ with
    | nil => exact absurd h.eq_nil (List.cons_ne_nil x xs)
    | cons y ys =>
      simp only [summarize, Option.some.injEq, Summary.mk.injEq]
      exact ⟨h.length_eq, foldl_max_perm h, foldl_min_perm h,
        by rw [h.sum_eq, h.length_eq]⟩

/-! ### Lemmas about eligibility, registry lookup and `stream` -/

lemma eligible_true_iff {now : Time} {t : Trace} :
    eligible now t = true ↔ (t.start_time < now ∧ t.end_time ≠ none) := by
  simp [eligible, Option.isSome_iff_ne_none]

lemma findId_append_of_all_ne {reg₁ : Registry} (reg₂ : Registry) {i : String}
    (h : ∀ t ∈ reg₁, t.id ≠ i) :
    findId (reg₁ ++ reg₂) i = findId reg₂ i := by
  induction reg₁ with
  | nil => rfl
  | cons t reg₁ ih =>
    rw [List.cons_append, findId,
      if_neg (by simp [h t (List.mem_cons_self t reg₁)]),
      ih (fun u hu => h u (List.mem_cons_of_mem _ hu))]

lemma findId_append_of_some {reg₁ : Registry} (reg₂ : Registry) {i : String} {r : Trace}
    (h : findId reg₁ i = some r) :
    findId (reg₁ ++ reg₂) i = some r := by
  induction reg₁ with
  | nil => simp [findId] at h
  | cons t reg₁ ih =>
    rw [List.cons_append, findId]
    rw [findId] at h
    cases ht : (t.id == i) with
    | true => rw [ht] at h; simp only [if_true] at h ⊢; exact h
    | false =>
      rw [ht] at h
      simp only [Bool.false_eq_true, if_false] at h ⊢
      exact ih h

lemma map_update_of_all_ne {reg : Registry} {i : String} (g : Trace → Trace)
    (h : ∀ t ∈ reg, t.id ≠ i) :
    reg.map (fun t => if t.id == i then g t else t) = reg := by
  induction reg with
  | nil => rfl
  | cons t reg ih =>
    rw [List.map_cons, if_neg (by simp [h t (List.mem_cons_self t reg)]),
      ih (fun u hu => h u (List.mem_cons_of_mem _ hu))]

lemma findId_map_endUpd {reg : Registry} {i j : String} {e2 : Time} (hij : j ≠ i) :
    findId (reg.map (fun t =>
        if t.id == j then
          { t with end_time := some e2,
                   total_time := some (total_seconds (e2 - t.start_time) * 1000) }
        else t)) i
      = findId reg i := by
  induction reg with
  | nil => rfl
  | cons t reg ih =>
    rw [List.map_cons]
    by_cases htj : t.id = j
    · have h2 : t.id ≠ i := fun hc => hij (htj.symm.trans hc)
      rw [if_pos (by simp [htj]), findId, if_neg (by simp [h2]), findId,
        if_neg (by simp [h2]), ih]
    · rw [if_neg (by simp [htj])]
      by_cases hti : t.id = i
      · rw [findId, if_pos (by simp [hti]), findId, if_pos (by simp [hti])]
      · rw [findId, if_neg (by simp [hti]), findId, if_neg (by simp [hti]), ih]

lemma mem_popTraces {reg : Registry} {drained : List Trace} {u : Trace} :
    u ∈ popTraces reg drained ↔ u ∈ reg ∧ ∀ v ∈ drained, v.id ≠ u.id := by
  simp [popTraces, List.mem_filter]

lemma stream_empty_case {reg : Registry} {now : Time}
    (hE : reg.filter (eligible now) = []) :
    stream reg now = some (none, reg) := by
  simp [stream, hE]

lemma stream_nonempty_case {reg : Registry} {now : Time} {s : Stats}
    (hE : reg.filter (eligible now) ≠ [])
    (hs : stats (reg.filter (eligible now)) = some s) :
    stream reg now = some (some s, popTraces reg (reg.filter (eligible now))) := by
  simp [stream, List.isEmpty_iff, hE, hs]

lemma stream_subset {reg : Registry} {now : Time} {res : Option Stats} {reg' : Registry}
    (h : stream reg now = some (res, reg')) : ∀ u ∈ reg', u ∈ reg := by
  by_cases hE : reg.filter (eligible now) = []
  · rw [stream_empty_case hE] at h
    obtain ⟨-, rfl⟩ : res = none ∧ reg = reg' := by
      simpa [Prod.ext_iff, eq_comm] using h
    exact fun u hu => hu
  · cases hs : stats (reg.filter (eligible now)) with
    | none => simp [stream, List.isEmpty_iff, hE, hs] at h
    | some s =>
      rw [stream_nonempty_case hE hs] at h
      obtain ⟨-, rfl⟩ : some s = res ∧ popTraces reg (reg.filter (eligible now)) = reg' := by
        simpa [Prod.ext_iff] using h
      exact fun u hu => (mem_popTraces.mp hu).1

/-! ### Lemmas about string joining and flat maps (Prometheus driver) -/

lemma joinLines_append_blank :
    ∀ (lines : List String), lines ≠ [] →
      joinLines (lines ++ [""]) = joinLines lines ++ "\n" := by
  intro lines
  induction lines with
  | nil => intro h; exact absurd rfl h
  | cons l rest ih =>
    intro _
    cases rest with
    | nil => simp [joinLines, String.append_empty]
    | cons m rest2 =>
      simp only [List.cons_append, joinLines]
      change l ++ "\n" ++ joinLines (m :: rest2 ++ [""]) = _
      rw [ih (List.cons_ne_nil m rest2)]
      simp [String.append_assoc]

lemma infix_flatMap {α β : Type} (f : α → List β) {l : List α} {x : α} (hx : x ∈ l) :
    (f x).IsInfix (l.flatMap f) := by
  rw [List.flatMap_def]
  exact List.infix_of_mem_flatten (List.mem_map_of_mem f hx)

lemma pathJoin_plain {a b : String} (ha : a ≠ "") (hs : lastSlash a = false)
    (hb : headSlash b = false) :
    pathJoin a b = a ++ "/" ++ b := by
  simp [pathJoin, hb, hs, beq_eq_false_iff_ne.mpr ha]

lemma append_ne_empty_right {a b : String} (hb : b ≠ "") : a ++ b ≠ "" := by
  intro hc
  apply hb
  apply String.ext
  have := congrArg String.data hc
  rw [String.data_append] at this
  exact (List.append_eq_nil.mp this).2

lemma lastSlash_append {a b : String} (hb : b.data ≠ []) :
    lastSlash (a ++ b) = lastSlash b := by
  unfold lastSlash
  rw [String.data_append, List.getLast?_append_of_ne_nil _ hb]

/-! ### The claims -/

/-- C7: when no eligible completed trace exists at flush time — the
registry is empty, or every entry has `end_time` unset or
`start_time >= now` — the flush is a no-op: `stream` builds no report
(result `none`, so the configured driver's `stream` is never invoked)
and the registry is left unchanged. -/
theorem c7_stream_noop (reg : Registry) (now : Time)
    (h : ∀ t ∈ reg, t.end_time = none ∨ now ≤ t.start_time) :
    stream reg now = some (none, reg) := by
  apply stream_empty_case
  rw [List.filter_eq_nil_iff]
  intro t ht hc
  rcases eligible_true_iff.mp hc with ⟨h1, h2⟩
  rcases h t ht with h3 | h3
  · exact h2 h3
  · exact absurd h1 (not_lt.mpr h3)

/-- Witness for C7 at a registry holding one in-flight trace and one
future-dated completed trace. -/
theorem c7_stream_noop_witness :
    (∀ t ∈ ([⟨"a", "k", 5, none, none⟩, ⟨"b", "k", 12, some 13, some 0⟩] : Registry),
      t.end_time = none ∨ (10 : ℤ) ≤ t.start_time) ∧
    stream [⟨"a", "k", 5, none, none⟩, ⟨"b", "k", 12, some 13, some 0⟩] 10
      = some (none, [⟨"a", "k", 5, none, none⟩, ⟨"b", "k", 12, some 13, some 0⟩]) :=
  ⟨by decide, c7_stream_noop _ 10 (by decide)⟩

/-- C9: the scheduled rollover check compares only minute-of-hour values:
on the empty registry it never triggers, on a non-empty registry it
triggers exactly when the minute field of `now` differs from the minute
field of the oldest (first inserted) entry's `start_time`, and an oldest
entry lying any whole number of hours in the past — same minute-of-hour —
does not trigger a flush. -/
theorem c9_minute_of_hour (first : Trace) (rest : List Trace) (now : Time) :
    time_to_stream [] now = false ∧
    (time_to_stream (first :: rest) now = true ↔
      minuteOf now ≠ minuteOf first.start_time) ∧
    (∀ h : ℤ, first.start_time = now - 3600000000 * h →
      time_to_stream (first :: rest) now = false) := by
  refine ⟨rfl, by simp [time_to_stream], ?_⟩
  intro h hh
  have hmin : minuteOf first.start_time = minuteOf now := by
    rw [hh]
    unfold minuteOf
    omega
  simp [time_to_stream, hmin]

/-- Witness for C9: a trace started exactly one hour before `now` does not
trigger the rollover flush. -/
theorem c9_minute_of_hour_witness :
    ((⟨"a", "k", 3600000000, none, none⟩ : Trace).start_time
      = 7200000000 - 3600000000 * 1) ∧
    time_to_stream [⟨"a", "k", 3600000000, none, none⟩] 7200000000 = false :=
  ⟨by decide,
    (c9_minute_of_hour ⟨"a", "k", 3600000000, none, none⟩ [] 7200000000).2.2 1 (by decide)⟩

/-- C10: the aggregation never divides by zero: a key enters the iteration
order of `stats` only if some trace produced it, so its group of traces
— and its list of `total_time` values — is non-empty, and whenever the
per-group summary is computed the divisor `len(times)` is positive. -/
theorem c10_no_division_by_zero (traces : List Trace) (k : String)
    (hk : k ∈ statsKeys traces) :
    traces.filter (fun t => t.key == k) ≠ [] ∧
    0 < (groupTimes traces k).length ∧
    (∀ (times : List ℚ) (s : Summary), summarize times = some s →
      0 < times.length ∧ s.avg = times.sum / (times.length : ℚ)) := by
  obtain ⟨t, ht, hkey⟩ := mem_statsKeys.mp hk
  have hmem : t ∈ traces.filter (fun t => t.key == k) :=
    List.mem_filter.mpr ⟨ht, by simp [hkey]⟩
  refine ⟨List.ne_nil_of_mem hmem, ?_, ?_⟩
  · rw [groupTimes, List.length_map]
    exact List.length_pos.mpr (List.ne_nil_of_mem hmem)
  · intro times s hs
    cases times with
    | nil => simp [summarize] at hs
    | cons x xs =>
      simp only [summarize, Option.some.injEq] at hs
      exact ⟨by simp, by rw [← hs]⟩

/-- Witness for C10 at a singleton registry batch. -/
theorem c10_no_division_by_zero_witness :
    ("k" ∈ statsKeys [⟨"a", "k", 0, some 5, some 5⟩]) ∧
    (([⟨"a", "k", 0, some 5, some 5⟩] : List Trace).filter (fun t => t.key == "k") ≠ [] ∧
      0 < (groupTimes [⟨"a", "k", 0, some 5, some 5⟩] "k").length ∧
      (∀ (times : List ℚ) (s : Summary), summarize times = some s →
        0 < times.length ∧ s.avg = times.sum / (times.length : ℚ))) :=
  ⟨by decide, c10_no_division_by_zero [⟨"a", "k", 0, some 5, some 5⟩] "k" (by decide)⟩

/-- C3: a trace created by `trace_start` at clock reading `s` and completed
by `trace_end` at reading `e` ends up with `end_time = e` and
`total_time = (e - s) microseconds expressed in milliseconds`, which is
non-negative whenever the clock did not run backwards; the field is unset
before `trace_end`, set by it, and no other operation — a later
`trace_start`, `trace_exception`, `trace_end` on a different id, or a
flush — ever changes the stored record again. -/
theorem c3_total_time_once (reg : Registry) (f : Func) (i : String) (s e : Time)
    (hfresh : ∀ t ∈ reg, t.id ≠ i) (hmono : s ≤ e) :
    ∃ reg2, trace_end (trace_start reg i f s) i e = some reg2 ∧
      findId (trace_start reg i f s) i =
        some { id := i, key := funcKey f, start_time := s,
               end_time := none, total_time := none } ∧
      findId reg2 i =
        some { id := i, key := funcKey f, start_time := s,
               end_time := some e, total_time := some (((e - s : ℤ) : ℚ) / 1000) } ∧
      total_seconds (e - s) * 1000 = ((e - s : ℤ) : ℚ) / 1000 ∧
      0 ≤ (((e - s : ℤ) : ℚ) / 1000) ∧
      (∀ u ∈ reg2, u.id = i →
        u = { id := i, key := funcKey f, start_time := s,
              end_time := some e, total_time := some (((e - s : ℤ) : ℚ) / 1000) }) ∧
      (∀ i2 f2 s2, findId (trace_start reg2 i2 f2 s2) i = findId reg2 i) ∧
      (∀ i2 e2 f2 ta tb, findId (trace_exception reg2 i2 e2 f2 ta tb) i = findId reg2 i) ∧
      (∀ j e2 reg3, j ≠ i → trace_end reg2 j e2 = some reg3 →
        findId reg3 i = findId reg2 i) ∧
      (∀ now res reg3, stream reg2 now = some (res, reg3) →
        ∀ u ∈ reg3, u.id = i →
          u = { id := i, key := funcKey f, start_time := s,
                end_time := some e, total_time := some (((e - s : ℤ) : ℚ) / 1000) }) := by
  have harith : total_seconds (e - s) * 1000 = ((e - s : ℤ) : ℚ) / 1000 := by
    unfold total_seconds
    rw [div_mul_eq_mul_div]
    rw [show ((1000000 : ℚ)) = 1000 * 1000 from by norm_num]
    rw [show (((e - s : ℤ) : ℚ) * 1000) = 1000 * ((e - s : ℤ) : ℚ) from mul_comm _ _]
    rw [mul_div_mul_left _ _ (by norm_num : (1000 : ℚ) ≠ 0)]
  have hrec :
      (if ({ id := i, key := funcKey f, start_time := s,
             end_time := none, total_time := none } : Trace).id == i then
        ({ id := i, key := funcKey f, start_time := s, end_time := some e,
           total_time := some (total_seconds
             (e - ({ id := i, key := funcKey f, start_time := s,
                     end_time := none, total_time := none } : Trace).start_time) * 1000) } : Trace)
      else { id := i, key := funcKey f, start_time := s,
             end_time := none, total_time := none })
        = ({ id := i, key := funcKey f, start_time := s,
             end_time := some e, total_time := some (((e - s : ℤ) : ℚ) / 1000) } : Trace) := by
    rw [if_pos (by simp)]
    simp [harith]
  have hmem : (trace_start reg i f s).any (fun t => t.id == i) = true := by
    simp [trace_start]
  have hmap : trace_end (trace_start reg i f s) i e
      = some (reg ++ [({ id := i, key := funcKey f, start_time := s,
                         end_time := some e,
                         total_time := some (((e - s : ℤ) : ℚ) / 1000) } : Trace)]) := by
    rw [trace_end, if_pos hmem, trace_start, List.map_append,
      map_update_of_all_ne _ hfresh, List.map_cons, List.map_nil, hrec]
  refine ⟨_, hmap, ?_, ?_, harith, ?_, ?_, ?_, ?_, ?_, ?_⟩
  · rw [trace_start, findId_append_of_all_ne _ hfresh, findId, if_pos (by simp)]
  · rw [findId_append_of_all_ne _ hfresh, findId, if_pos (by simp)]
  · apply div_nonneg
    · exact_mod_cast Int.sub_nonneg.mpr hmono
    · norm_num
  · intro u hu hui
    rcases List.mem_append.mp hu with hu | hu
    · exact absurd hui (hfresh u hu)
    · simpa using hu
  · intro i2 f2 s2
    rw [trace_start, findId_append_of_some _
      (by rw [findId_append_of_all_ne _ hfresh, findId, if_pos (by simp)]),
      findId_append_of_all_ne _ hfresh, findId, if_pos (by simp)]
  · intro i2 e2 f2 ta tb
    rw [trace_exception, findId_append_of_some _
      (by rw [findId_append_of_all_ne _ hfresh, findId, if_pos (by simp)]),
      findId_append_of_all_ne _ hfresh, findId, if_pos (by simp)]
  · intro j e2 reg3 hj htr
    rw [trace_end] at htr
    by_cases hany : (reg ++ [({ id := i, key := funcKey f, start_time := s,
                                end_time := some e,
                                total_time := some (((e - s : ℤ) : ℚ) / 1000) } :
                              Trace)]).any (fun t => t.id == j) = true
    · rw [if_pos hany] at htr
      obtain rfl := Option.some.inj htr
      exact findId_map_endUpd hj
    · rw [if_neg hany] at htr
      cases htr
  · intro now res reg3 hst u hu hui
    have hsub := stream_subset hst u hu
    rcases List.mem_append.mp hsub with hmem2 | hmem2
    · exact absurd hui (hfresh u hmem2)
    · simpa using hmem2

/-- Witness for C3: start at 0 µs, complete at 1000000 µs (one second),
yielding a `total_time` of 1000 ms. -/
theorem c3_total_time_once_witness :
    (∀ t ∈ ([] : Registry), t.id ≠ "a") ∧ ((0 : ℤ) ≤ 1000000) ∧
    (∃ reg2, trace_end (trace_start [] "a" ⟨"mod", "fn"⟩ 0) "a" 1000000 = some reg2 ∧
      findId (trace_start [] "a" ⟨"mod", "fn"⟩ 0) "a" =
        some { id := "a", key := funcKey ⟨"mod", "fn"⟩, start_time := 0,
               end_time := none, total_time := none } ∧
      findId reg2 "a" =
        some { id := "a", key := funcKey ⟨"mod", "fn"⟩, start_time := 0,
               end_time := some 1000000,
               total_time := some (((1000000 - 0 : ℤ) : ℚ) / 1000) } ∧
      total_seconds (1000000 - 0) * 1000 = ((1000000 - 0 : ℤ) : ℚ) / 1000 ∧
      0 ≤ (((1000000 - 0 : ℤ) : ℚ) / 1000) ∧
      (∀ u ∈ reg2, u.id = "a" →
        u = { id := "a", key := funcKey ⟨"mod", "fn"⟩, start_time := 0,
              end_time := some 1000000,
              total_time := some (((1000000 - 0 : ℤ) : ℚ) / 1000) }) ∧
      (∀ i2 f2 s2, findId (trace_start reg2 i2 f2 s2) "a" = findId reg2 "a") ∧
      (∀ i2 e2 f2 ta tb, findId (trace_exception reg2 i2 e2 f2 ta tb) "a"
        = findId reg2 "a") ∧
      (∀ j e2 reg3, j ≠ "a" → trace_end reg2 j e2 = some reg3 →
        findId reg3 "a" = findId reg2 "a") ∧
      (∀ now res reg3, stream reg2 now = some (res, reg3) →
        ∀ u ∈ reg3, u.id = "a" →
          u = { id := "a", key := funcKey ⟨"mod", "fn"⟩, start_time := 0,
                end_time := some 1000000,
                total_time := some (((1000000 - 0 : ℤ) : ℚ) / 1000) })) :=
  ⟨by decide, by decide,
    c3_total_time_once [] ⟨"mod", "fn"⟩ "a" 0 1000000 (by decide) (by decide)⟩

/-- C2: when the wrapped callable raises, the wrapper records a failure
trace (via `trace_exception`) and re-raises the very same exception —
same value, hence same type and message — while the trace opened by
`trace_start` is never completed: its `end_time` and `total_time` stay
unset, so `trace_end` was not invoked for that invocation. -/
theorem c2_exception_reraised {α : Type} (reg : Registry) (f : Func) (i1 : String)
    (t1 : Time) (e : Exc) (i2 : String) (t2 t3 t4 : Time)
    (h1 : ∀ t ∈ reg, t.id ≠ i1) (h2 : ∀ t ∈ reg, t.id ≠ i2) (h12 : i1 ≠ i2) :
    ∃ reg2, traceWrapper (α := α) reg f i1 t1 (Except.error e) i2 t2 t3 t4
        = some (reg2, Except.error e) ∧
      findId reg2 i2 = some
        { id := i2,
          key := "Exception:" ++ f.module ++ ":" ++ f.qualname ++ ":" ++ exLabel e,
          start_time := t2, end_time := some t3, total_time := some 0 } ∧
      findId reg2 i1 = some
        { id := i1, key := funcKey f, start_time := t1,
          end_time := none, total_time := none } := by
  refine ⟨_, rfl, ?_, ?_⟩
  · rw [trace_exception, trace_start, List.append_assoc,
      findId_append_of_all_ne _ h2, List.singleton_append, findId,
      if_neg (by simp [h12]), findId, if_pos (by simp)]
  · rw [trace_exception, trace_start, List.append_assoc,
      findId_append_of_all_ne _ h1, List.singleton_append, findId,
      if_pos (by simp)]

/-- Witness for C2: a raising invocation at concrete clock readings; the
`ValueError` with message `boom` propagates unchanged. -/
theorem c2_exception_reraised_witness :
    (∀ t ∈ ([] : Registry), t.id ≠ "a") ∧ (∀ t ∈ ([] : Registry), t.id ≠ "b") ∧
    ("a" ≠ "b") ∧
    (∃ reg2, traceWrapper (α := ℕ) [] ⟨"mod", "fn"⟩ "a" 0
        (Except.error ⟨"ValueError", "boom"⟩) "b" 7 8 9
        = some (reg2, Except.error ⟨"ValueError", "boom"⟩) ∧
      findId reg2 "b" = some
        { id := "b",
          key := "Exception:" ++ "mod" ++ ":" ++ "fn" ++ ":"
            ++ exLabel ⟨"ValueError", "boom"⟩,
          start_time := 7, end_time := some 8, total_time := some 0 } ∧
      findId reg2 "a" = some
        { id := "a", key := funcKey ⟨"mod", "fn"⟩,
          start_time := 0, end_time := none, total_time := none }) :=
  ⟨by decide, by decide, by decide,
    c2_exception_reraised [] ⟨"mod", "fn"⟩ "a" 0 ⟨"ValueError", "boom"⟩ "b" 7 8 9
      (by decide) (by decide) (by decide)⟩

/-- C4 counterexample: the source reads `datetime.utcnow()` twice when it
builds the synthetic failure trace (`start_time=datetime.utcnow(),
end_time=datetime.utcnow()`), so with consecutive clock readings 0 and 1
the inserted trace has `start_time ≠ end_time`, refuting the claim that
the synthetic trace always satisfies `start_time == end_time`; its
`total_time` is nonetheless the literal 0. -/
theorem c4_start_end_counterexample :
    (∀ t ∈ trace_exception [] "i" ⟨"ValueError", "boom"⟩ ⟨"mod", "fn"⟩ 0 1,
      some t.start_time ≠ t.end_time ∧ t.total_time = some 0) ∧
    (trace_exception [] "i" ⟨"ValueError", "boom"⟩ ⟨"mod", "fn"⟩ 0 1).length = 1 := by
  decide

/-- C4 (amended): `trace_exception` appends exactly one synthetic
already-completed trace whose key is
`Exception:<key>:<ErrorClass>(<first line of message>)` — with `<key>` the
callable's `module:qualname` label used by `trace_start` — and whose
`total_time` is 0; its `start_time` and `end_time` are the two successive
clock readings taken at record time, so they coincide exactly when those
readings do. -/
theorem c4_trace_exception_amended (reg : Registry) (i : String) (e : Exc) (f : Func)
    (t1 t2 : Time) :
    trace_exception reg i e f t1 t2
      = reg ++ [({ id := i, key := "Exception:" ++ funcKey f ++ ":" ++ exLabel e,
                   start_time := t1, end_time := some t2,
                   total_time := some 0 } : Trace)] ∧
    (t1 = t2 →
      ∀ t ∈ trace_exception reg i e f t1 t2, t ∉ reg →
        some t.start_time = t.end_time) := by
  constructor
  · rw [trace_exception, funcKey]
    simp [String.append_assoc]
  · rintro rfl t ht hnew
    rcases List.mem_append.mp ht with hmem | hmem
    · exact absurd hmem hnew
    · have heq : t =
          ({ id := i,
             key := "Exception:" ++ f.module ++ ":" ++ f.qualname ++ ":" ++ exLabel e,
             start_time := t1, end_time := some t1, total_time := some 0 } : Trace) := by
        simpa using hmem
      rw [heq]

/-- Witness for C4 (amended): with coinciding clock readings the synthetic
trace is the single appended record and has `start_time = end_time`. -/
theorem c4_trace_exception_amended_witness :
    (trace_exception [] "i" ⟨"ValueError", "boom"⟩ ⟨"mod", "fn"⟩ 5 5
      = [] ++ [({ id := "i",
                  key := "Exception:" ++ funcKey ⟨"mod", "fn"⟩ ++ ":"
                    ++ exLabel ⟨"ValueError", "boom"⟩,
                  start_time := 5, end_time := some 5,
                  total_time := some 0 } : Trace)]) ∧
    ((5 : ℤ) = 5) ∧
    (∀ t ∈ trace_exception [] "i" ⟨"ValueError", "boom"⟩ ⟨"mod", "fn"⟩ 5 5,
      t ∉ ([] : Registry) → some t.start_time = t.end_time) :=
  ⟨(c4_trace_exception_amended [] "i" ⟨"ValueError", "boom"⟩ ⟨"mod", "fn"⟩ 5 5).1,
    by decide,
    (c4_trace_exception_amended [] "i" ⟨"ValueError", "boom"⟩ ⟨"mod", "fn"⟩ 5 5).2 (by decide)⟩

/-- C6: for every non-empty group of `total_time` values, the per-group
summary has `count` equal to the group's size, `max`/`min` equal to the
greatest/least value of the group (they belong to the group and bound
it), and `avg` equal to the arithmetic mean; in particular a singleton
group yields `min = max = avg =` its element with `count = 1`, and the
group `[100, 300]` yields `count=2, min=100, max=300, avg=200`. -/
theorem c6_group_summary (x : ℚ) (xs : List ℚ) :
    ∃ s, summarize (x :: xs) = some s ∧
      s.count = (x :: xs).length ∧
      s.max ∈ x :: xs ∧ (∀ a ∈ x :: xs, a ≤ s.max) ∧
      s.min ∈ x :: xs ∧ (∀ a ∈ x :: xs, s.min ≤ a) ∧
      s.avg = (x :: xs).sum / ((x :: xs).length : ℚ) ∧
      (∀ y : ℚ, summarize [y] = some { count := 1, max := y, min := y, avg := y }) ∧
      summarize [(100 : ℚ), 300] = some { count := 2, max := 300, min := 100, avg := 200 } := by
  refine ⟨_, rfl, rfl, foldl_max_mem x xs, le_foldl_max x xs,
    foldl_min_mem x xs, foldl_min_le x xs, rfl, ?_, ?_⟩
  · intro y
    simp [summarize]
  · simp only [summarize, Option.some.injEq, Summary.mk.injEq]
    norm_num [max_def, min_def]

/-- Witness for C6 at the group `[100, 300]`. -/
theorem c6_group_summary_witness :
    ∃ s, summarize ((100 : ℚ) :: [300]) = some s ∧
      s.count = ((100 : ℚ) :: [300]).length ∧
      s.max ∈ (100 : ℚ) :: [300] ∧ (∀ a ∈ (100 : ℚ) :: [300], a ≤ s.max) ∧
      s.min ∈ (100 : ℚ) :: [300] ∧ (∀ a ∈ (100 : ℚ) :: [300], s.min ≤ a) ∧
      s.avg = ((100 : ℚ) :: [300]).sum / (((100 : ℚ) :: [300]).length : ℚ) ∧
      (∀ y : ℚ, summarize [y] = some { count := 1, max := y, min := y, avg := y }) ∧
      summarize [(100 : ℚ), 300] = some { count := 2, max := 300, min := 100, avg := 200 } :=
  c6_group_summary 100 [300]

/-- C5: the aggregation is order-independent: permuting a batch of
completed traces yields Stats results that agree — as Python dicts do —
on every key, because each group's summary depends only on the multiset
of `total_time` values collected for that key. -/
theorem c5_stats_order_independent (l₁ l₂ : List Trace) (hp : l₁.Perm l₂)
    (hc : ∀ t ∈ l₁, t.total_time.isSome) :
    ∃ s₁ s₂, stats l₁ = some s₁ ∧ stats l₂ = some s₂ ∧
      ∀ k, s₁.lookup k = s₂.lookup k := by
  have hc₂ : ∀ t ∈ l₂, t.total_time.isSome := fun t ht => hc t (hp.mem_iff.mpr ht)
  refine ⟨_, _, stats_eq hc, stats_eq hc₂, ?_⟩
  intro k
  rw [lookup_keyed, lookup_keyed]
  have hkm : k ∈ statsKeys l₁ ↔ k ∈ statsKeys l₂ := by
    rw [mem_statsKeys, mem_statsKeys]
    constructor <;> rintro ⟨t, ht, rfl⟩
    · exact ⟨t, hp.mem_iff.mp ht, rfl⟩
    · exact ⟨t, hp.mem_iff.mpr ht, rfl⟩
  have hsum : summaryD l₁ k = summaryD l₂ k := by
    unfold summaryD groupValues
    rw [summarize_perm ((hp.filter _).filterMap _)]
  by_cases hk : k ∈ statsKeys l₁
  · rw [if_pos hk, if_pos (hkm.mp hk), hsum]
  · rw [if_neg hk, if_neg (fun hc2 => hk (hkm.mpr hc2))]

/-- Witness for C5: swapping two completed traces of the same key gives
Stats agreeing on every key. -/
theorem c5_stats_order_independent_witness :
    (([⟨"a", "k", 0, some 3, some 3⟩, ⟨"b", "k", 1, some 4, some 4⟩] : List Trace).Perm
      [⟨"b", "k", 1, some 4, some 4⟩, ⟨"a", "k", 0, some 3, some 3⟩]) ∧
    (∀ t ∈ ([⟨"a", "k", 0, some 3, some 3⟩, ⟨"b", "k", 1, some 4, some 4⟩] : List Trace),
      t.total_time.isSome) ∧
    (∃ s₁ s₂,
      stats [⟨"a", "k", 0, some 3, some 3⟩, ⟨"b", "k", 1, some 4, some 4⟩] = some s₁ ∧
      stats [⟨"b", "k", 1, some 4, some 4⟩, ⟨"a", "k", 0, some 3, some 3⟩] = some s₂ ∧
      ∀ k, s₁.lookup k = s₂.lookup k) :=
  ⟨List.Perm.swap _ _ _, by decide,
    c5_stats_order_independent _ _ (List.Perm.swap _ _ _) (by decide)⟩

/-- C1: a flush (`stream`) drains into the report exactly the entries
whose `end_time` is set and whose `start_time` is strictly before the
captured `now` — the report, when one is produced, is `stats` of exactly
that set, and no report is produced iff that set is empty; afterwards
every drained trace id is absent from the registry, and every entry with
`end_time` unset or `start_time >= now` remains in the registry, its
record untouched. -/
theorem c1_stream_drains_eligible (reg : Registry) (now : Time)
    (hnd : (reg.map (fun t => t.id)).Nodup)
    (hwf : ∀ t ∈ reg, t.end_time.isSome → t.total_time.isSome) :
    ∃ res reg2, stream reg now = some (res, reg2) ∧
      (∀ t ∈ reg, t.start_time < now → t.end_time ≠ none →
        ∀ u ∈ reg2, u.id ≠ t.id) ∧
      (∀ t ∈ reg, ¬(t.start_time < now ∧ t.end_time ≠ none) → t ∈ reg2) ∧
      (∀ u ∈ reg2, u ∈ reg ∧ ¬(u.start_time < now ∧ u.end_time ≠ none)) ∧
      (res = none ↔ ∀ t ∈ reg, ¬(t.start_time < now ∧ t.end_time ≠ none)) ∧
      (∀ s, res = some s → stats (reg.filter (eligible now)) = some s) := by
  by_cases hE : reg.filter (eligible now) = []
  · have hnone : ∀ t ∈ reg, ¬(t.start_time < now ∧ t.end_time ≠ none) := by
      intro t ht hc
      exact (List.filter_eq_nil_iff.mp hE t ht) (eligible_true_iff.mpr hc)
    refine ⟨none, reg, stream_empty_case hE, ?_, ?_, ?_, ?_, ?_⟩
    · intro t ht h1 h2
      exact absurd ⟨h1, h2⟩ (hnone t ht)
    · intro t ht _
      exact ht
    · intro u hu
      exact ⟨hu, hnone u hu⟩
    · exact ⟨fun _ => hnone, fun _ => rfl⟩
    · intro s hs
      cases hs
  · have hwfE : ∀ t ∈ reg.filter (eligible now), t.total_time.isSome := by
      intro t ht
      have h1 := List.mem_filter.mp ht
      exact hwf t h1.1
        (Option.isSome_iff_ne_none.mpr (eligible_true_iff.mp h1.2).2)
    refine ⟨some ((statsKeys (reg.filter (eligible now))).map
        (fun k => (k, summaryD (reg.filter (eligible now)) k))),
      popTraces reg (reg.filter (eligible now)),
      stream_nonempty_case hE (stats_eq hwfE), ?_, ?_, ?_, ?_, ?_⟩
    · intro t ht h1 h2 u hu hc
      have hmem := mem_popTraces.mp hu
      have htf : t ∈ reg.filter (eligible now) :=
        List.mem_filter.mpr ⟨ht, eligible_true_iff.mpr ⟨h1, h2⟩⟩
      exact hmem.2 t htf hc.symm
    · intro t ht hne
      refine mem_popTraces.mpr ⟨ht, ?_⟩
      intro v hv hc
      have h1 := List.mem_filter.mp hv
      have hve := eligible_true_iff.mp h1.2
      have hvt : v = t := List.inj_on_of_nodup_map hnd h1.1 ht hc
      exact hne (hvt ▸ hve)
    · intro u hu
      have hmem := mem_popTraces.mp hu
      refine ⟨hmem.1, fun hc => ?_⟩
      have huf : u ∈ reg.filter (eligible now) :=
        List.mem_filter.mpr ⟨hmem.1, eligible_true_iff.mpr hc⟩
      exact hmem.2 u huf rfl
    · constructor
      · intro h
        cases h
      · intro h
        exact absurd (List.filter_eq_nil_iff.mpr
          (fun t ht he => h t ht (eligible_true_iff.mp he))) hE
    · intro s hs
      rw [← Option.some.inj hs]
      exact stats_eq hwfE

/-- Witness for C1: a registry with one eligible completed trace and one
in-flight trace, flushed at `now = 10`. -/
theorem c1_stream_drains_eligible_witness :
    (([⟨"a", "k", 0, some 5, some 5⟩, ⟨"b", "k", 1, none, none⟩] : Registry).map
      (fun t => t.id)).Nodup ∧
    (∀ t ∈ ([⟨"a", "k", 0, some 5, some 5⟩, ⟨"b", "k", 1, none, none⟩] : Registry),
      t.end_time.isSome → t.total_time.isSome) ∧
    (∃ res reg2,
      stream [⟨"a", "k", 0, some 5, some 5⟩, ⟨"b", "k", 1, none, none⟩] 10
        = some (res, reg2) ∧
      (∀ t ∈ ([⟨"a", "k", 0, some 5, some 5⟩, ⟨"b", "k", 1, none, none⟩] : Registry),
        t.start_time < 10 → t.end_time ≠ none → ∀ u ∈ reg2, u.id ≠ t.id) ∧
      (∀ t ∈ ([⟨"a", "k", 0, some 5, some 5⟩, ⟨"b", "k", 1, none, none⟩] : Registry),
        ¬(t.start_time < 10 ∧ t.end_time ≠ none) → t ∈ reg2) ∧
      (∀ u ∈ reg2,
        u ∈ ([⟨"a", "k", 0, some 5, some 5⟩, ⟨"b", "k", 1, none, none⟩] : Registry) ∧
        ¬(u.start_time < 10 ∧ u.end_time ≠ none)) ∧
      (res = none ↔
        ∀ t ∈ ([⟨"a", "k", 0, some 5, some 5⟩, ⟨"b", "k", 1, none, none⟩] : Registry),
          ¬(t.start_time < 10 ∧ t.end_time ≠ none)) ∧
      (∀ s, res = some s →
        stats (([⟨"a", "k", 0, some 5, some 5⟩, ⟨"b", "k", 1, none, none⟩] :
          Registry).filter (eligible 10)) = some s)) :=
  ⟨by decide, by decide,
    c1_stream_drains_eligible
      [⟨"a", "k", 0, some 5, some 5⟩, ⟨"b", "k", 1, none, none⟩] 10
      (by decide) (by decide)⟩

/-- C8: the Prometheus push-gateway driver POSTs to
`<base-url>/metrics/job/<name>`; the body is the newline-joined line list
terminated by a blank line, and for every traced key and metric field the
line list contains the adjacent pair
`# TYPE <name>:<key>_<field> gauge` / `<name>:<key>_<field> <value>` with
the value rendered by the two-decimal formatter. -/
theorem c8_prometheus_payload (name url : String) (traces : PromTraces)
    (hurl : url ≠ "") (hsl : lastSlash url = false) (hname : headSlash name = false) :
    (promStream name url traces).1 = url ++ "/metrics/job/" ++ name ∧
    (promLines name traces ≠ [] →
      (promStream name url traces).2 = joinLines (promLines name traces) ++ "\n") ∧
    (∀ job minutes, (job, minutes) ∈ traces →
      ∀ m fields, (m, fields) ∈ minutes →
        ∀ k v, (k, v) ∈ fields →
          List.IsInfix
            ["# TYPE " ++ (name ++ ":" ++ job) ++ "_" ++ k ++ " gauge",
             (name ++ ":" ++ job) ++ "_" ++ k ++ " " ++ fmt2 v]
            (promLines name traces)) := by
  refine ⟨?_, ?_, ?_⟩
  · show pathJoin (pathJoin url "metrics/job") name = _
    rw [pathJoin_plain hurl hsl (by decide),
      pathJoin_plain (append_ne_empty_right (by decide))
        (by rw [String.append_assoc, lastSlash_append (by decide)]; decide) hname,
      String.append_assoc url, String.append_assoc url,
      String.append_assoc ("/" : String), String.append_assoc url]
    rw [show ("/" ++ ("metrics/job" ++ "/") : String) = "/metrics/job/" from by decide,
      ← String.append_assoc]
  · intro h
    show joinLines (promLines name traces ++ [""]) = _
    exact joinLines_append_blank _ h
  · intro job minutes hjm m fields hmf k v hkv
    have h3 : List.IsInfix
        ["# TYPE " ++ (name ++ ":" ++ job) ++ "_" ++ k ++ " gauge",
         (name ++ ":" ++ job) ++ "_" ++ k ++ " " ++ fmt2 v]
        (fields.flatMap (fun kv =>
          ["# TYPE " ++ (name ++ ":" ++ job) ++ "_" ++ kv.1 ++ " gauge",
           (name ++ ":" ++ job) ++ "_" ++ kv.1 ++ " " ++ fmt2 kv.2])) :=
      infix_flatMap (fun kv : String × ℚ =>
        ["# TYPE " ++ (name ++ ":" ++ job) ++ "_" ++ kv.1 ++ " gauge",
         (name ++ ":" ++ job) ++ "_" ++ kv.1 ++ " " ++ fmt2 kv.2]) hkv
    have h4 : List.IsInfix
        (fields.flatMap (fun kv =>
          ["# TYPE " ++ (name ++ ":" ++ job) ++ "_" ++ kv.1 ++ " gauge",
           (name ++ ":" ++ job) ++ "_" ++ kv.1 ++ " " ++ fmt2 kv.2]))
        (minutes.flatMap (fun minuteEntry =>
          minuteEntry.2.flatMap (fun kv =>
            ["# TYPE " ++ (name ++ ":" ++ job) ++ "_" ++ kv.1 ++ " gauge",
             (name ++ ":" ++ job) ++ "_" ++ kv.1 ++ " " ++ fmt2 kv.2]))) :=
      infix_flatMap (fun minuteEntry =>
        minuteEntry.2.flatMap (fun kv =>
          ["# TYPE " ++ (name ++ ":" ++ job) ++ "_" ++ kv.1 ++ " gauge",
           (name ++ ":" ++ job) ++ "_" ++ kv.1 ++ " " ++ fmt2 kv.2])) hmf
    have h5 : List.IsInfix
        (minutes.flatMap (fun minuteEntry =>
          minuteEntry.2.flatMap (fun kv =>
            ["# TYPE " ++ (name ++ ":" ++ job) ++ "_" ++ kv.1 ++ " gauge",
             (name ++ ":" ++ job) ++ "_" ++ kv.1 ++ " " ++ fmt2 kv.2])))
        (promLines name traces) :=
      infix_flatMap (fun jobEntry =>
        jobEntry.2.flatMap (fun minuteEntry =>
          minuteEntry.2.flatMap (fun kv =>
            ["# TYPE " ++ (name ++ ":" ++ jobEntry.1) ++ "_" ++ kv.1 ++ " gauge",
             (name ++ ":" ++ jobEntry.1) ++ "_" ++ kv.1 ++ " " ++ fmt2 kv.2])))
        hjm
    exact h3.trans (h4.trans h5)

/-- Witness for C8 at a one-job, one-minute, one-field report. -/
theorem c8_prometheus_payload_witness :
    (("http://h:9091" : String) ≠ "") ∧ lastSlash "http://h:9091" = false ∧
    headSlash "app" = false ∧
    ((promStream "app" "http://h:9091" [("j", [("m", [("count", 1)])])]).1
      = "http://h:9091" ++ "/metrics/job/" ++ "app" ∧
    (promLines "app" [("j", [("m", [("count", 1)])])] ≠ [] →
      (promStream "app" "http://h:9091" [("j", [("m", [("count", 1)])])]).2
        = joinLines (promLines "app" [("j", [("m", [("count", 1)])])]) ++ "\n") ∧
    (∀ job minutes, (job, minutes) ∈ ([("j", [("m", [("count", (1 : ℚ))])])] : PromTraces) →
      ∀ m fields, (m, fields) ∈ minutes →
        ∀ k v, (k, v) ∈ fields →
          List.IsInfix
            ["# TYPE " ++ ("app" ++ ":" ++ job) ++ "_" ++ k ++ " gauge",
             ("app" ++ ":" ++ job) ++ "_" ++ k ++ " " ++ fmt2 v]
            (promLines "app" [("j", [("m", [("count", 1)])])]))) :=
  ⟨by decide, by decide, by decide,
    c8_prometheus_payload "app" "http://h:9091" [("j", [("m", [("count", 1)])])]
      (by decide) (by decide) (by decide)⟩

end Aiometrics
